import Mathlib

/-!
Shallow embedding of the RobloxDwellingLive (ResiLIVE) server, covering the
two server iterations present in the repository:

* the document-database iteration (`server.js`, Firestore collections
  `users` / `communities` / `access_logs`), and
* the file-based iteration (the unnamed `server.js` variant persisting
  `data.json`, `users.json` and `access_logs.json`).

Collections are modelled as Lean lists of records; Firestore document ids
are the `id` fields.  Timestamps (`Date.now()`, Firestore
`serverTimestamp`) are modelled as integers; `createdAt`/`updatedAt`
decoration fields that no claim mentions are omitted.  bcrypt password
hashes are carried as opaque strings.  Each route handler becomes a pure
function from the relevant state (plus the request parameters) to the new
state together with the HTTP status code it responds with.
-/

/-- A time-limited access code attached to an address
(`{id, description, code, expiresAt}` in both iterations).  `expiresAt`
is the numeric timestamp that `new Date(code.expiresAt)` denotes. -/
structure Code where
  id : String
  description : String
  code : String
  expiresAt : Int
  deriving DecidableEq

/-- A resident record attached to an address (`{id, username, playerId}`). -/
structure Person where
  id : String
  username : String
  playerId : String
  deriving DecidableEq

/-- An address inside a community.  The `codes` field is `Option`al
because the JavaScript objects may lack the `codes` property (the code
guards every use with `if (address.codes)`). -/
structure Address where
  id : String
  street : String
  people : List Person
  codes : Option (List Code)
  deriving DecidableEq

/-- A community document: `{id, name, addresses, allowedUsers}`. -/
structure Community where
  id : String
  name : String
  addresses : List Address
  allowedUsers : List String
  deriving DecidableEq

/-- A user document: `{id, username, password, role}` with
`role ∈ {user, admin, superuser}`. -/
structure User where
  id : String
  username : String
  password : String
  role : String
  deriving DecidableEq

/-- One document of the Firestore `access_logs` collection:
`{community, player, action, timestamp}` (the auto-generated document id
is not modelled; no claim concerns it). -/
structure LogEntry where
  community : String
  player : String
  action : String
  timestamp : Int
  deriving DecidableEq

/-- The three Firestore collections of the document-database iteration. -/
structure DbState where
  users : List User
  communities : List Community
  accessLogs : List LogEntry
  deriving DecidableEq

/-- One entry of a per-community log bucket in `access_logs.json` of the
file-based iteration (`{player, action, timestamp}`, ISO-string time). -/
structure FileLogEntry where
  player : String
  action : String
  timestamp : String
  deriving DecidableEq

/-- One bucket of `access_logs.json`: `{name, logs}`. -/
structure CommunityLog where
  name : String
  logs : List FileLogEntry
  deriving DecidableEq

/-- The persistent state of the file-based iteration: the `communities`
array of `data.json` and the `communities` array of `access_logs.json`. -/
structure FileState where
  communities : List Community
  logBuckets : List CommunityLog
  deriving DecidableEq

/-- The request body of `POST /api/communities` together with the id the
server generates for the new record (`Date.now().toString()` in the
file-based iteration, the Firestore auto-id in the other). -/
structure CreateReq where
  newId : String
  name : String
  allowedUsers : List String
  deriving DecidableEq

/-- `POST /api/communities` of the document-database iteration
(`server.js`): reject with 400 once 8 communities exist, otherwise add
`{name, addresses: [], allowedUsers: req.body.allowedUsers || []}`. -/
def createCommunity (s : DbState) (newId name : String)
    (allowedUsers : List String) : DbState × Nat :=
  if 8 ≤ s.communities.length then (s, 400)
  else
    ({ s with communities :=
        s.communities ++ [⟨newId, name, [], allowedUsers⟩] }, 201)

/-- The helper `addCommunityToAccessLogs` of the file-based iteration:
append an empty log bucket for `name` unless one already exists. -/
def addCommunityToAccessLogs (bs : List CommunityLog) (name : String) :
    List CommunityLog :=
  if bs.any (fun b => b.name == name) then bs else bs ++ [⟨name, []⟩]

/-- The first-registered `POST /api/communities` handler of the
file-based iteration: cap of 9 communities, then push the new community
and create its access-log bucket. -/
def createCommunityFileA (s : FileState) (r : CreateReq) : FileState × Nat :=
  if 9 ≤ s.communities.length then (s, 400)
  else
    ({ communities := s.communities ++ [⟨r.newId, r.name, [], r.allowedUsers⟩],
       logBuckets := addCommunityToAccessLogs s.logBuckets r.name }, 201)

/-- The second, duplicate `POST /api/communities` handler of the
file-based iteration (marked `duplicate, should be removed` in the
source): no cap check, `allowedUsers` always `[]`, no log bucket. -/
def createCommunityFileB (s : FileState) (r : CreateReq) : FileState × Nat :=
  ({ s with communities := s.communities ++ [⟨r.newId, r.name, [], []⟩] }, 201)

/-- The first-registered `DELETE /api/communities/:id` handler of the
file-based iteration: 404 when the id is unknown, otherwise remove the
community and its whole access-log bucket (by name) and answer 204. -/
def deleteCommunityFileA (s : FileState) (id : String) : FileState × Nat :=
  match s.communities.find? (fun c => c.id == id) with
  | some comm =>
      ({ communities := s.communities.filter (fun c => c.id != id),
         logBuckets := s.logBuckets.filter (fun b => b.name != comm.name) }, 204)
  | none => (s, 404)

/-- The second, duplicate `DELETE /api/communities/:id` handler of the
file-based iteration: unconditionally filter the id out and answer 204,
leaving the access-log buckets untouched. -/
def deleteCommunityFileB (s : FileState) (id : String) : FileState × Nat :=
  ({ s with communities := s.communities.filter (fun c => c.id != id) }, 204)

/-- Express dispatch for duplicate registrations.  The Express router
tries routes in registration order and the first route whose method and
path match handles the request; none of these handlers calls `next()`,
so a later duplicate registration of the same method and path is dead
code.  The effective handler for a (method, path) is therefore the first
element of the list of handlers registered for it (an empty list would
fall through to the given fallback). -/
def firstRegistered {α : Type} (hs : List α) (fallback : α) : α :=
  hs.headD fallback

/-- Fallback behaviour when no route matches (Express would 404). -/
def unmatchedCreate : FileState → CreateReq → FileState × Nat :=
  fun s _ => (s, 404)

/-- Fallback behaviour when no route matches (Express would 404). -/
def unmatchedDelete : FileState → String → FileState × Nat :=
  fun s _ => (s, 404)

/-- The handler that actually serves `POST /api/communities` in the
file-based iteration, given the two registrations in source order. -/
def effectiveCreateFile : FileState → CreateReq → FileState × Nat :=
  firstRegistered [createCommunityFileA, createCommunityFileB] unmatchedCreate

/-- The handler that actually serves `DELETE /api/communities/:id` in
the file-based iteration, given the two registrations in source order. -/
def effectiveDeleteFile : FileState → String → FileState × Nat :=
  firstRegistered [deleteCommunityFileA, deleteCommunityFileB] unmatchedDelete

/-- A state of the file-based iteration already holding nine
communities (the cap of that iteration). -/
def nineCommunities : List Community :=
  [⟨"1", "A", [], []⟩, ⟨"2", "B", [], []⟩, ⟨"3", "C", [], []⟩,
   ⟨"4", "D", [], []⟩, ⟨"5", "E", [], []⟩, ⟨"6", "F", [], []⟩,
   ⟨"7", "G", [], []⟩, ⟨"8", "H", [], []⟩, ⟨"9", "I", [], []⟩]

/-- Eight communities: the cap of the document-database iteration. -/
def eightCommunities : List Community :=
  [⟨"1", "A", [], []⟩, ⟨"2", "B", [], []⟩, ⟨"3", "C", [], []⟩,
   ⟨"4", "D", [], []⟩, ⟨"5", "E", [], []⟩, ⟨"6", "F", [], []⟩,
   ⟨"7", "G", [], []⟩, ⟨"8", "H", [], []⟩]

/-- File-based state filled up to its cap of nine communities. -/
def fullFileState : FileState := ⟨nineCommunities, []⟩

/-- C1: once the community cap is reached (8 in the document-database
iteration, 9 in the file-based iteration), a `POST /api/communities`
request — dispatched, in the file-based iteration, through the duplicate
registrations — answers 400 and leaves the stored state unchanged. -/
theorem C1_create_at_cap_rejected :
    (∀ (s : DbState) (newId name : String) (au : List String),
        8 ≤ s.communities.length →
        createCommunity s newId name au = (s, 400)) ∧
    (∀ (s : FileState) (r : CreateReq),
        9 ≤ s.communities.length →
        effectiveCreateFile s r = (s, 400)) := by
  constructor
  · intro s newId name au h
    simp [createCommunity, h]
  · intro s r h
    simp [effectiveCreateFile, firstRegistered, createCommunityFileA, h]

/-- Witness for C1 at concrete full states. -/
theorem C1_create_at_cap_rejected_witness :
    createCommunity ⟨[], eightCommunities, []⟩ "9" "Elm" [] =
      (⟨[], eightCommunities, []⟩, 400) ∧
    effectiveCreateFile fullFileState ⟨"10", "Elm", []⟩ =
      (fullFileState, 400) :=
  ⟨C1_create_at_cap_rejected.1 ⟨[], eightCommunities, []⟩ "9" "Elm" []
      (by decide),
   C1_create_at_cap_rejected.2 fullFileState ⟨"10", "Elm", []⟩ (by decide)⟩

/-- C9 counterexample: at the nine-community cap, the request is NOT
handled like the last-registered duplicate handler: the effective route
(first registration, which checks the cap) answers 400 while the
duplicate handler would answer 201. -/
theorem C9_counterexample_last_does_not_win :
    (effectiveCreateFile fullFileState ⟨"10", "Elm", []⟩).2 = 400 ∧
    (createCommunityFileB fullFileState ⟨"10", "Elm", []⟩).2 = 201 := by
  decide

/-- C9 (amended): Express dispatches a request to the first-registered
handler for its method and path, so the observable behaviour of
`POST /api/communities` and `DELETE /api/communities/:id` in the
file-based iteration is that of the first, original handlers; the
duplicate handlers genuinely differ (so the amendment is not vacuous). -/
theorem C9_first_registration_wins :
    effectiveCreateFile = createCommunityFileA ∧
    effectiveDeleteFile = deleteCommunityFileA ∧
    (∃ s r, createCommunityFileA s r ≠ createCommunityFileB s r) ∧
    (∃ s i, deleteCommunityFileA s i ≠ deleteCommunityFileB s i) := by
  refine ⟨rfl, rfl, ⟨fullFileState, ⟨"10", "Elm", []⟩, by decide⟩,
    ⟨⟨[], []⟩, "1", by decide⟩⟩

/-- One pass of `removeExpiredCodes` over a single address: keep exactly
the codes with `new Date(code.expiresAt) > now`; the returned flag
records whether the filter shortened the list (the source compares the
filtered length to `initialLength`).  Addresses without a `codes`
property are skipped by the `if (address.codes)` guard. -/
def sweepAddress (now : Int) (a : Address) : Address × Bool :=
  match a.codes with
  | none => (a, false)
  | some cs =>
      let kept := cs.filter (fun k => decide (now < k.expiresAt))
      ({ a with codes := some kept }, decide (kept.length < cs.length))

/-- One pass of `removeExpiredCodes` over a single community: sweep every
address, flag set when any address lost a code. -/
def sweepCommunity (now : Int) (c : Community) : Community × Bool :=
  let rs := c.addresses.map (sweepAddress now)
  ({ c with addresses := rs.map Prod.fst }, rs.any Prod.snd)

/-- The body of `removeExpiredCodes` (identical in both iterations):
sweep every community and report the `codesRemoved` flag. -/
def removeExpiredCodes (now : Int) (comms : List Community) :
    List Community × Bool :=
  let rs := comms.map (sweepCommunity now)
  (rs.map Prod.fst, rs.any Prod.snd)

/-- The full periodic job: write the swept data back only when
`codesRemoved` is true; the returned flag is whether a write-back
happened. -/
def sweepStep (now : Int) (comms : List Community) : List Community × Bool :=
  let r := removeExpiredCodes now comms
  if r.2 then (r.1, true) else (comms, false)

/-- The sweep of one address, without the bookkeeping flag. -/
def sweepAddressPure (now : Int) (a : Address) : Address :=
  { a with codes := a.codes.map (fun cs =>
      cs.filter (fun k => decide (now < k.expiresAt))) }

theorem sweepAddress_fst (now : Int) (a : Address) :
    (sweepAddress now a).1 = sweepAddressPure now a := by
  cases a with
  | mk id street people codes =>
      cases codes <;> simp [sweepAddress, sweepAddressPure]

theorem sweepAddress_snd_eq_false (now : Int) (a : Address) :
    (sweepAddress now a).2 = false ↔
      ∀ cs, a.codes = some cs → ∀ k ∈ cs, now < k.expiresAt := by
  cases a with
  | mk id street people codes =>
      cases codes with
      | none => simp [sweepAddress]
      | some cs =>
          simp only [sweepAddress, decide_eq_false_iff_not, not_lt,
            Option.some.injEq]
          constructor
          · intro hlen cs' hcs' k hk
            subst hcs'
            have hself :
                cs.filter (fun k => decide (now < k.expiresAt)) = cs := by
              have hsub := List.filter_sublist
                (p := fun k => decide (now < k.expiresAt)) (l := cs)
              exact hsub.eq_of_length (le_antisymm
                (List.length_filter_le _ _) hlen)
            have := hself ▸ hk
            simpa using (List.of_mem_filter this)
          · intro h
            have hself :
                cs.filter (fun k => decide (now < k.expiresAt)) = cs :=
              List.filter_eq_self.2 fun k hk => by
                simpa using h cs rfl k hk
            simp [hself]

/-- C2: one run of `removeExpiredCodes` keeps, in every address of every
community, exactly the codes whose `expiresAt` is strictly after `now`
(so a past code is removed and a future code is kept), the
`codesRemoved` flag is false exactly when every stored code is still
unexpired, and when the flag is false the job performs no write-back
and leaves the data as it was. -/
theorem C2_sweep_removes_exactly_expired (now : Int) (comms : List Community) :
    (removeExpiredCodes now comms).1 =
      comms.map (fun c =>
        { c with addresses := c.addresses.map (sweepAddressPure now) }) ∧
    ((removeExpiredCodes now comms).2 = false ↔
      ∀ c ∈ comms, ∀ a ∈ c.addresses, ∀ cs, a.codes = some cs →
        ∀ k ∈ cs, now < k.expiresAt) ∧
    ((removeExpiredCodes now comms).2 = false →
      sweepStep now comms = (comms, false)) := by
  refine ⟨?_, ?_, ?_⟩
  · simp only [removeExpiredCodes, List.map_map]
    refine List.map_congr_left fun c _ => ?_
    simp only [Function.comp, sweepCommunity, List.map_map]
    congr 1
    exact List.map_congr_left fun a _ => sweepAddress_fst now a
  · have hc2 : ∀ c : Community, ((sweepCommunity now c).2 = false ↔
        ∀ a ∈ c.addresses, (sweepAddress now a).2 = false) := by
      intro c
      simp [sweepCommunity, List.any_map, List.any_eq_false, Function.comp]
    have hall : ((removeExpiredCodes now comms).2 = false ↔
        ∀ c ∈ comms, (sweepCommunity now c).2 = false) := by
      simp [removeExpiredCodes, List.any_map, List.any_eq_false,
        Function.comp]
    rw [hall]
    constructor
    · intro h c hc a ha cs hcs k hk
      exact (sweepAddress_snd_eq_false now a).1
        ((hc2 c).1 (h c hc) a ha) cs hcs k hk
    · intro h c hc
      exact (hc2 c).2 fun a ha =>
        (sweepAddress_snd_eq_false now a).2 (h c hc a ha)
  · intro h
    simp [sweepStep, h]

/-- Witness for C2: a community holding one expired code (`expiresAt`
50 < now = 100) and one future code (`expiresAt` 200): the sweep keeps
exactly the future one; and on the already-swept result it removes
nothing and performs no write-back. -/
theorem C2_sweep_removes_exactly_expired_witness :
    (removeExpiredCodes 100
        [⟨"1", "Elm", [⟨"a1", "s", [],
            some [⟨"c1", "d", "x", 50⟩, ⟨"c2", "d", "y", 200⟩]⟩], []⟩]).1 =
      [⟨"1", "Elm", [⟨"a1", "s", [], some [⟨"c2", "d", "y", 200⟩]⟩], []⟩] ∧
    sweepStep 100
        [⟨"1", "Elm", [⟨"a1", "s", [], some [⟨"c2", "d", "y", 200⟩]⟩], []⟩] =
      ([⟨"1", "Elm", [⟨"a1", "s", [], some [⟨"c2", "d", "y", 200⟩]⟩], []⟩],
        false) := by
  constructor
  · rw [(C2_sweep_removes_exactly_expired 100 _).1]
    decide
  · refine (C2_sweep_removes_exactly_expired 100 _).2.2 ?_
    decide

/-- The first-registered (and hence effective) `DELETE
/api/communities/:id` handler of the document-database iteration: 404
when the id is unknown, otherwise one batch deletes the community
document and every `access_logs` document whose `community` field equals
the community's name, and the route answers 200.  Firestore document ids
are unique within a collection, so deleting the one addressed document
is the same as filtering its id out. -/
def deleteCommunity (s : DbState) (id : String) : DbState × Nat :=
  match s.communities.find? (fun c => c.id == id) with
  | none => (s, 404)
  | some comm =>
      ({ s with
          communities := s.communities.filter (fun c => c.id != id),
          accessLogs :=
            s.accessLogs.filter (fun e => e.community != comm.name) }, 200)

/-- C4: deleting an existing community answers 200, removes the
community, and removes every access-log entry whose `community` field
equals that community's name, so no log entry for that name remains. -/
theorem C4_delete_cascades_logs (s : DbState) (id : String) (comm : Community)
    (hfind : s.communities.find? (fun c => c.id == id) = some comm) :
    (deleteCommunity s id).2 = 200 ∧
    (∀ c ∈ (deleteCommunity s id).1.communities, c.id ≠ id) ∧
    (deleteCommunity s id).1.accessLogs.filter
      (fun e => e.community == comm.name) = [] := by
  refine ⟨?_, ?_, ?_⟩
  · simp [deleteCommunity, hfind]
  · intro c hc
    simp only [deleteCommunity, hfind, List.mem_filter, bne_iff_ne,
      ne_eq] at hc
    exact hc.2
  · simp only [deleteCommunity, hfind]
    rw [List.filter_eq_nil_iff]
    intro e he
    have := (List.mem_filter.1 he).2
    simp only [bne_iff_ne, ne_eq] at this
    simp [this]

/-- Witness for C4: deleting community `"1"` named `"Elm"` from a state
with two log entries, one for `"Elm"` and one for `"Oak"`. -/
theorem C4_delete_cascades_logs_witness :
    (deleteCommunity
        ⟨[], [⟨"1", "Elm", [], []⟩],
         [⟨"Elm", "p", "enter", 5⟩, ⟨"Oak", "q", "enter", 6⟩]⟩ "1").2 = 200 ∧
    (∀ c ∈ (deleteCommunity
        ⟨[], [⟨"1", "Elm", [], []⟩],
         [⟨"Elm", "p", "enter", 5⟩, ⟨"Oak", "q", "enter", 6⟩]⟩ "1").1.communities,
        c.id ≠ "1") ∧
    (deleteCommunity
        ⟨[], [⟨"1", "Elm", [], []⟩],
         [⟨"Elm", "p", "enter", 5⟩, ⟨"Oak", "q", "enter", 6⟩]⟩ "1").1.accessLogs.filter
      (fun e => e.community == "Elm") = [] :=
  C4_delete_cascades_logs
    ⟨[], [⟨"1", "Elm", [], []⟩],
     [⟨"Elm", "p", "enter", 5⟩, ⟨"Oak", "q", "enter", 6⟩]⟩ "1"
    ⟨"1", "Elm", [], []⟩ (by decide)

/-- `PUT /api/users/:id/role` of the document-database iteration: 403 on
self-modification, 404 when the target is unknown, 403 for a superuser
target; otherwise flip the role between `admin` and `user` and, exactly
when the new role is `admin`, remove the target's username from the
`allowedUsers` array of every community containing it. -/
def toggleRole (s : DbState) (callerId targetId : String) : DbState × Nat :=
  if targetId == callerId then (s, 403)
  else
    match s.users.find? (fun v => v.id == targetId) with
    | none => (s, 404)
    | some u =>
        if u.role == "superuser" then (s, 403)
        else
          let newRole := if u.role == "admin" then "user" else "admin"
          let users :=
            s.users.map (fun v =>
              if v.id == targetId then { v with role := newRole } else v)
          let comms :=
            if newRole == "admin" then
              s.communities.map (fun c =>
                if c.allowedUsers.contains u.username then
                  { c with allowedUsers :=
                      c.allowedUsers.filter (fun n => n != u.username) }
                else c)
            else s.communities
          ({ s with users := users, communities := comms }, 200)

/-- C5: toggling a non-superuser, non-self user from role `user` to
`admin` answers 200 and removes that username from every community's
allow-list; toggling a (non-superuser, non-self) `admin` back to `user`
answers 200 and leaves every community's allow-list exactly as it was
(nothing is restored). -/
theorem C5_role_toggle_allowlist (s : DbState) (callerId targetId : String)
    (u : User) (hself : targetId ≠ callerId)
    (hfind : s.users.find? (fun v => v.id == targetId) = some u) :
    (u.role = "user" →
      (toggleRole s callerId targetId).2 = 200 ∧
      ∀ c ∈ (toggleRole s callerId targetId).1.communities,
        u.username ∉ c.allowedUsers) ∧
    (u.role = "admin" →
      (toggleRole s callerId targetId).2 = 200 ∧
      (toggleRole s callerId targetId).1.communities = s.communities) := by
  have hne : (targetId == callerId) = false := by
    simpa using hself
  constructor
  · intro hrole
    have hres : toggleRole s callerId targetId =
        ({ s with
            users := s.users.map (fun v =>
              if v.id == targetId then { v with role := "admin" } else v),
            communities := s.communities.map (fun c =>
              if c.allowedUsers.contains u.username then
                { c with allowedUsers :=
                    c.allowedUsers.filter (fun n => n != u.username) }
              else c) }, 200) := by
      simp [toggleRole, hne, hfind, hrole]
    rw [hres]
    refine ⟨rfl, ?_⟩
    intro c hc
    simp only [List.mem_map] at hc
    obtain ⟨c₀, _, rfl⟩ := hc
    by_cases hmem : c₀.allowedUsers.contains u.username
    · simp only [hmem, if_true]
      intro habs
      have := (List.mem_filter.1 habs).2
      simp at this
    · simp only [hmem, Bool.false_eq_true, if_false]
      intro habs
      simp only [List.contains, List.elem_iff] at hmem
      exact hmem habs
  · intro hrole
    simp [toggleRole, hne, hfind, hrole]

/-- Witness for C5: promoting user `"u2"` (role `user`, username
`"bob"`) purges `"bob"` from the one community listing it; demoting
admin `"u3"` leaves the communities untouched. -/
theorem C5_role_toggle_allowlist_witness :
    ((toggleRole
        ⟨[⟨"u2", "bob", "h", "user"⟩], [⟨"1", "Elm", [], ["bob"]⟩], []⟩
        "u1" "u2").2 = 200 ∧
      ∀ c ∈ (toggleRole
        ⟨[⟨"u2", "bob", "h", "user"⟩], [⟨"1", "Elm", [], ["bob"]⟩], []⟩
        "u1" "u2").1.communities, "bob" ∉ c.allowedUsers) ∧
    ((toggleRole
        ⟨[⟨"u3", "eve", "h", "admin"⟩], [⟨"1", "Elm", [], ["bob"]⟩], []⟩
        "u1" "u3").2 = 200 ∧
      (toggleRole
        ⟨[⟨"u3", "eve", "h", "admin"⟩], [⟨"1", "Elm", [], ["bob"]⟩], []⟩
        "u1" "u3").1.communities = [⟨"1", "Elm", [], ["bob"]⟩]) :=
  ⟨(C5_role_toggle_allowlist
      ⟨[⟨"u2", "bob", "h", "user"⟩], [⟨"1", "Elm", [], ["bob"]⟩], []⟩
      "u1" "u2" ⟨"u2", "bob", "h", "user"⟩ (by decide) (by decide)).1 rfl,
   (C5_role_toggle_allowlist
      ⟨[⟨"u3", "eve", "h", "admin"⟩], [⟨"1", "Elm", [], ["bob"]⟩], []⟩
      "u1" "u3" ⟨"u3", "eve", "h", "admin"⟩ (by decide) (by decide)).2 rfl⟩

/-- The model of JavaScript `toLowerCase()`: lowercase every character
(ASCII case-folding; usernames in this application are ASCII). -/
def jsToLower (s : String) : String := ⟨s.data.map Char.toLower⟩

/-- One step of the validation loop of
`PUT /api/communities/:id/allowed-users` (document-database iteration),
acting on the accumulator `(validUsers, invalidUsers)` for one
already-lowercased requested name: look the user up case-insensitively;
a found non-admin non-superuser user contributes their stored-case
username to `validUsers` (no duplicates), anything else lands in
`invalidUsers`. -/
def validateStep (users : List User) (acc : List String × List String)
    (uname : String) : List String × List String :=
  match users.find? (fun u => jsToLower u.username == uname) with
  | some u =>
      if u.role ≠ "admin" ∧ u.role ≠ "superuser" then
        if acc.1.contains u.username then acc
        else (acc.1 ++ [u.username], acc.2)
      else (acc.1, acc.2 ++ [uname])
  | none => (acc.1, acc.2 ++ [uname])

/-- Whether a (lowercased) requested name fails the validation of the
allowed-users route: no user matches it case-insensitively, or the
first match is an admin or superuser. -/
def invalidName (users : List User) (uname : String) : Bool :=
  match users.find? (fun u => jsToLower u.username == uname) with
  | some u => u.role == "admin" || u.role == "superuser"
  | none => true

theorem validateStep_of_find_some (users : List User)
    (acc : List String × List String) (uname : String) (u : User)
    (hfind : users.find? (fun v => jsToLower v.username == uname) = some u) :
    validateStep users acc uname =
      if u.role ≠ "admin" ∧ u.role ≠ "superuser" then
        if acc.1.contains u.username then acc
        else (acc.1 ++ [u.username], acc.2)
      else (acc.1, acc.2 ++ [uname]) := by
  unfold validateStep
  rw [hfind]

theorem validateStep_of_find_none (users : List User)
    (acc : List String × List String) (uname : String)
    (hfind : users.find? (fun v => jsToLower v.username == uname) = none) :
    validateStep users acc uname = (acc.1, acc.2 ++ [uname]) := by
  unfold validateStep
  rw [hfind]

/-- The result of the allowed-users route: new state, HTTP status, and
the `validUsers` / `invalidUsers` lists the response reports. -/
structure AllowedUsersResult where
  state : DbState
  status : Nat
  validUsers : List String
  invalidUsers : List String
  deriving DecidableEq

/-- `PUT /api/communities/:id/allowed-users` of the document-database
iteration: 404 for an unknown community; otherwise lowercase the
requested names, run the validation loop, store `validUsers` as the
community's allow-list and answer 200, reporting the invalid names in
the response (as a warning when any exist). -/
def setAllowedUsers (s : DbState) (id : String) (requested : List String) :
    AllowedUsersResult :=
  match s.communities.find? (fun c => c.id == id) with
  | none => ⟨s, 404, [], []⟩
  | some _ =>
      let va := (requested.map jsToLower).foldl (validateStep s.users)
        ([], [])
      ⟨{ s with communities := s.communities.map (fun c =>
            if c.id == id then { c with allowedUsers := va.1 } else c) },
        200, va.1, va.2⟩

/-- `PUT /api/communities/:id/allowed-users` of the file-based
iteration: 404 for an unknown community, otherwise store the requested
list verbatim — no user store is consulted, nothing is filtered. -/
def setAllowedUsersFile (comms : List Community) (id : String)
    (requested : List String) : List Community × Nat :=
  match comms.find? (fun c => c.id == id) with
  | some _ =>
      (comms.map (fun c =>
        if c.id == id then { c with allowedUsers := requested } else c), 200)
  | none => (comms, 404)

/-- Every name the validation loop ever puts into `validUsers` is the
stored username of an existing non-admin, non-superuser user. -/
theorem validateStep_foldl_valid (users : List User) :
    ∀ (l : List String) (acc : List String × List String),
      (∀ n ∈ acc.1, ∃ u ∈ users,
        u.username = n ∧ u.role ≠ "admin" ∧ u.role ≠ "superuser") →
      ∀ n ∈ (l.foldl (validateStep users) acc).1, ∃ u ∈ users,
        u.username = n ∧ u.role ≠ "admin" ∧ u.role ≠ "superuser" := by
  intro l
  induction l with
  | nil => intro acc h n hn; exact h n hn
  | cons x xs ih =>
      intro acc h n hn
      refine ih (validateStep users acc x) ?_ n hn
      intro m hm
      cases hfind : users.find? (fun u => jsToLower u.username == x) with
      | none =>
          rw [validateStep_of_find_none users acc x hfind] at hm
          exact h m hm
      | some u =>
          rw [validateStep_of_find_some users acc x u hfind] at hm
          by_cases hrole : u.role ≠ "admin" ∧ u.role ≠ "superuser"
          · rw [if_pos hrole] at hm
            by_cases hdup : acc.1.contains u.username
            · rw [if_pos hdup] at hm; exact h m hm
            · rw [if_neg hdup] at hm
              rcases List.mem_append.1 hm with hold | hnew
              · exact h m hold
              · have : m = u.username := by simpa using hnew
                exact ⟨u, List.mem_of_find?_eq_some hfind, this.symm, hrole⟩
          · rw [if_neg hrole] at hm; exact h m hm

/-- The `invalidUsers` accumulator only grows along the loop. -/
theorem validateStep_foldl_invalid_mono (users : List User) :
    ∀ (l : List String) (acc : List String × List String) (y : String),
      y ∈ acc.2 → y ∈ (l.foldl (validateStep users) acc).2 := by
  intro l
  induction l with
  | nil => intro acc y hy; exact hy
  | cons x xs ih =>
      intro acc y hy
      refine ih (validateStep users acc x) y ?_
      cases hfind : users.find? (fun u => jsToLower u.username == x) with
      | none =>
          rw [validateStep_of_find_none users acc x hfind]
          simpa using Or.inl hy
      | some u =>
          rw [validateStep_of_find_some users acc x u hfind]
          by_cases hrole : u.role ≠ "admin" ∧ u.role ≠ "superuser"
          · rw [if_pos hrole]
            by_cases hdup : acc.1.contains u.username
            · rw [if_pos hdup]; exact hy
            · rw [if_neg hdup]; exact hy
          · rw [if_neg hrole]; simpa using Or.inl hy

/-- A requested name that fails validation always ends up in
`invalidUsers`. -/
theorem validateStep_foldl_invalid (users : List User) :
    ∀ (l : List String) (acc : List String × List String) (x : String),
      x ∈ l → invalidName users x = true →
      x ∈ (l.foldl (validateStep users) acc).2 := by
  intro l
  induction l with
  | nil => intro acc x hx; exact absurd hx (List.not_mem_nil x)
  | cons y ys ih =>
      intro acc x hx hbad
      rcases List.mem_cons.1 hx with rfl | hx'
      · refine validateStep_foldl_invalid_mono users ys
          (validateStep users acc x) x ?_
        unfold invalidName at hbad
        cases hfind : users.find? (fun u => jsToLower u.username == x) with
        | none =>
            rw [validateStep_of_find_none users acc x hfind]
            simp
        | some u =>
            rw [hfind] at hbad
            rw [validateStep_of_find_some users acc x u hfind]
            have : ¬(u.role ≠ "admin" ∧ u.role ≠ "superuser") := by
              rcases Bool.or_eq_true_iff.1 hbad with h | h
              · intro hc; exact hc.1 (by simpa using h)
              · intro hc; exact hc.2 (by simpa using h)
            rw [if_neg this]
            simp
      · exact ih (validateStep users acc y) x hx' hbad

/-- C6 (amended, document-database part): for an existing community the
route answers 200, every stored allow-list entry is the username of an
existing user who is neither admin nor superuser, the community's
stored allow-list is exactly the reported `validUsers`, and every
requested name that fails validation (unknown, or resolving to an
admin/superuser) is reported back, lowercased, in `invalidUsers`. -/
theorem C6_allowed_users_validated (s : DbState) (id : String)
    (requested : List String) (c₀ : Community)
    (hfind : s.communities.find? (fun c => c.id == id) = some c₀) :
    (setAllowedUsers s id requested).status = 200 ∧
    (∀ n ∈ (setAllowedUsers s id requested).validUsers, ∃ u ∈ s.users,
      u.username = n ∧ u.role ≠ "admin" ∧ u.role ≠ "superuser") ∧
    (∀ c ∈ (setAllowedUsers s id requested).state.communities, c.id = id →
      c.allowedUsers = (setAllowedUsers s id requested).validUsers) ∧
    (∀ x ∈ requested, invalidName s.users (jsToLower x) = true →
      jsToLower x ∈ (setAllowedUsers s id requested).invalidUsers) := by
  refine ⟨?_, ?_, ?_, ?_⟩
  · simp [setAllowedUsers, hfind]
  · intro n hn
    simp only [setAllowedUsers, hfind] at hn
    exact validateStep_foldl_valid s.users (requested.map jsToLower)
      ([], []) (by intro n hn; exact absurd hn (List.not_mem_nil n)) n hn
  · intro c hc hcid
    simp only [setAllowedUsers, hfind, List.mem_map] at hc ⊢
    obtain ⟨c₁, _, rfl⟩ := hc
    by_cases h : c₁.id == id
    · simp [h]
    · rw [if_neg h] at hcid ⊢
      exact absurd (by simpa using hcid) h
  · intro x hx hbad
    simp only [setAllowedUsers, hfind]
    exact validateStep_foldl_invalid s.users (requested.map jsToLower)
      ([], []) (jsToLower x) (List.mem_map_of_mem jsToLower hx) hbad

/-- Witness for C6's amended theorem: community `"1"` exists; requesting
`["Alice", "Boss", "ghost"]` against users alice (role `user`, stored as
`"alice"`) and boss (role `admin`) stores exactly `["alice"]` and
reports `["boss", "ghost"]` invalid. -/
theorem C6_allowed_users_validated_witness :
    (setAllowedUsers
        ⟨[⟨"u1", "alice", "h", "user"⟩, ⟨"u2", "boss", "h", "admin"⟩],
         [⟨"1", "Elm", [], []⟩], []⟩
        "1" ["Alice", "Boss", "ghost"]).status = 200 ∧
    (setAllowedUsers
        ⟨[⟨"u1", "alice", "h", "user"⟩, ⟨"u2", "boss", "h", "admin"⟩],
         [⟨"1", "Elm", [], []⟩], []⟩
        "1" ["Alice", "Boss", "ghost"]).validUsers = ["alice"] ∧
    "boss" ∈ (setAllowedUsers
        ⟨[⟨"u1", "alice", "h", "user"⟩, ⟨"u2", "boss", "h", "admin"⟩],
         [⟨"1", "Elm", [], []⟩], []⟩
        "1" ["Alice", "Boss", "ghost"]).invalidUsers ∧
    "ghost" ∈ (setAllowedUsers
        ⟨[⟨"u1", "alice", "h", "user"⟩, ⟨"u2", "boss", "h", "admin"⟩],
         [⟨"1", "Elm", [], []⟩], []⟩
        "1" ["Alice", "Boss", "ghost"]).invalidUsers := by
  have h := C6_allowed_users_validated
    ⟨[⟨"u1", "alice", "h", "user"⟩, ⟨"u2", "boss", "h", "admin"⟩],
     [⟨"1", "Elm", [], []⟩], []⟩
    "1" ["Alice", "Boss", "ghost"] ⟨"1", "Elm", [], []⟩ (by decide)
  refine ⟨h.1, by decide, ?_, ?_⟩
  · have hb := h.2.2.2 "Boss" (by decide) (by decide)
    have : jsToLower "Boss" = "boss" := by decide
    rwa [this] at hb
  · have hg := h.2.2.2 "ghost" (by decide) (by decide)
    have : jsToLower "ghost" = "ghost" := by decide
    rwa [this] at hg

/-- C6 counterexample: in the file-based iteration the route consults no
user store, so with the user store containing only the admin `"boss"`,
requesting `["boss"]` stores the admin's username in the allow-list and
answers plain 200 — nothing is excluded or reported invalid. -/
theorem C6_counterexample_file_stores_admin :
    (setAllowedUsersFile [⟨"1", "Elm", [], []⟩] "1" ["boss"]).1 =
      [⟨"1", "Elm", [], ["boss"]⟩] ∧
    (setAllowedUsersFile [⟨"1", "Elm", [], []⟩] "1" ["boss"]).2 = 200 ∧
    (⟨"u2", "boss", "h", "admin"⟩ : User).role = "admin" := by
  decide

/-- The descending-timestamp order used by the Firestore query
`orderBy('timestamp', 'desc')`. -/
def logDesc (a b : LogEntry) : Prop := b.timestamp ≤ a.timestamp

instance : DecidableRel logDesc :=
  fun a b => inferInstanceAs (Decidable (b.timestamp ≤ a.timestamp))

instance : IsTotal LogEntry logDesc :=
  ⟨fun a b => le_total b.timestamp a.timestamp⟩

instance : IsTrans LogEntry logDesc :=
  ⟨fun _ _ _ hab hbc => le_trans hbc hab⟩

/-- `GET /api/communities/:name/logs` of the document-database
iteration: query the `access_logs` collection for the community name,
order by timestamp descending and limit to 100 documents. -/
def getCommunityLogs (logs : List LogEntry) (name : String) : List LogEntry :=
  (List.insertionSort logDesc (logs.filter (fun e => e.community == name))).take 100

/-- `GET /api/communities/:name/logs` of the file-based iteration:
return the community's whole stored log bucket as-is (404, i.e. `none`,
when no bucket exists) — no limit, no reordering. -/
def communityLogsFile (bs : List CommunityLog) (name : String) :
    Option (List FileLogEntry) :=
  (bs.find? (fun b => b.name == name)).map CommunityLog.logs

/-- C7 (amended): in the document-database iteration the logs route
returns at most 100 entries, sorted newest first, all for the requested
community, and every matching stored entry left out is no newer than
any returned one; in the file-based iteration the route returns the
community's stored log list verbatim. -/
theorem C7_logs_most_recent_100 (logs : List LogEntry) (name : String) :
    (getCommunityLogs logs name).length ≤ 100 ∧
    List.Sorted logDesc (getCommunityLogs logs name) ∧
    (∀ e ∈ getCommunityLogs logs name, e.community = name) ∧
    (∀ y ∈ logs, y.community = name → y ∉ getCommunityLogs logs name →
      ∀ x ∈ getCommunityLogs logs name, y.timestamp ≤ x.timestamp) ∧
    (∀ (bs : List CommunityLog) (nm : String) (bucket : CommunityLog),
      bs.find? (fun b => b.name == nm) = some bucket →
      communityLogsFile bs nm = some bucket.logs) := by
  refine ⟨?_, ?_, ?_, ?_, ?_⟩
  · exact List.length_take_le 100 _
  · exact List.Pairwise.sublist (List.take_sublist 100 _)
      (List.sorted_insertionSort logDesc _)
  · intro e he
    have h1 : e ∈ List.insertionSort logDesc
        (logs.filter (fun e => e.community == name)) :=
      List.take_subset 100 _ he
    have h2 := (List.mem_insertionSort logDesc).1 h1
    have := (List.mem_filter.1 h2).2
    simpa using this
  · intro y hy hname hnotin x hx
    have hyf : y ∈ logs.filter (fun e => e.community == name) :=
      List.mem_filter.2 ⟨hy, by simpa using hname⟩
    have hys : y ∈ List.insertionSort logDesc
        (logs.filter (fun e => e.community == name)) :=
      (List.mem_insertionSort logDesc).2 hyf
    set srt := List.insertionSort logDesc
      (logs.filter (fun e => e.community == name)) with hsrt
    have hsplit : srt.take 100 ++ srt.drop 100 = srt :=
      List.take_append_drop 100 srt
    have hpw : List.Pairwise logDesc (srt.take 100 ++ srt.drop 100) := by
      rw [hsplit]
      exact List.sorted_insertionSort logDesc _
    have hydrop : y ∈ srt.drop 100 := by
      rcases (List.mem_append.1 (hsplit ▸ hys)) with h | h
      · exact absurd h hnotin
      · exact h
    exact (List.pairwise_append.1 hpw).2.2 x hx y hydrop
  · intro bs nm bucket hb
    simp [communityLogsFile, hb]

/-- Demonstration log store for the C7 witness: 101 entries for `"Elm"`
at time 5 and one older `"Elm"` entry at time 1, so the older entry is
among those cut off by the 100-entry limit. -/
def demoLogs : List LogEntry :=
  List.replicate 101 ⟨"Elm", "p", "enter", 5⟩ ++ [⟨"Elm", "q", "enter", 1⟩]

/-- Witness for C7 at concrete inputs: the route output on `demoLogs`
respects the limit and ordering, the old entry at time 1 is cut off and
indeed no newer than anything returned, and the file-based route
returns a concrete stored bucket verbatim. -/
theorem C7_logs_most_recent_100_witness :
    (getCommunityLogs demoLogs "Elm").length ≤ 100 ∧
    List.Sorted logDesc (getCommunityLogs demoLogs "Elm") ∧
    (∀ x ∈ getCommunityLogs demoLogs "Elm", (1 : Int) ≤ x.timestamp) ∧
    communityLogsFile [⟨"Elm", [⟨"p", "enter", "t1"⟩]⟩] "Elm" =
      some [⟨"p", "enter", "t1"⟩] := by
  have h := C7_logs_most_recent_100 demoLogs "Elm"
  refine ⟨h.1, h.2.1, ?_, h.2.2.2.2 [⟨"Elm", [⟨"p", "enter", "t1"⟩]⟩]
    "Elm" ⟨"Elm", [⟨"p", "enter", "t1"⟩]⟩ (by decide)⟩
  exact h.2.2.2.1 ⟨"Elm", "q", "enter", 1⟩ (by decide) rfl (by decide)

/-- C7 counterexample: the file-based logs route answers with every
stored entry; with 101 stored entries for `"Elm"` it returns 101
entries, more than the 100-entry limit the claim states. -/
theorem C7_counterexample_file_returns_all :
    ((communityLogsFile
        [⟨"Elm", List.replicate 101 ⟨"p", "enter", "t"⟩⟩] "Elm").getD []).length
      = 101 := by
  decide

/-- `POST /api/register` of the document-database iteration: the
duplicate check queries for stored usernames equal to the lowercased
input, but the created document stores the username in its original
case (`bcrypt` hashing of the password is abstracted as an opaque
string). -/
def registerUser (users : List User) (newId username hashed : String) :
    List User × Nat :=
  if users.any (fun u => u.username == jsToLower username) then (users, 400)
  else (users ++ [⟨newId, username, hashed, "user"⟩], 201)

/-- C8 (code evaluation at the failing input): starting from an empty
user store, registering `"Bob"` and then `"BOB"` both succeed with 201,
leaving two distinct users whose case-folded usernames coincide — the
register route's duplicate check compares the lowercased input against
the stored original-case usernames, so it misses case-insensitive
duplicates (and a user stored with uppercase letters can never be found
by the case-folding login lookup). -/
theorem C8_register_misses_case_duplicates :
    (registerUser [] "1" "Bob" "h1").2 = 201 ∧
    (registerUser (registerUser [] "1" "Bob" "h1").1 "2" "BOB" "h2").2 = 201 ∧
    (∃ u ∈ (registerUser (registerUser [] "1" "Bob" "h1").1 "2" "BOB" "h2").1,
      ∃ v ∈ (registerUser (registerUser [] "1" "Bob" "h1").1 "2" "BOB" "h2").1,
        u ≠ v ∧ jsToLower u.username = jsToLower v.username) := by
  decide

/-- The process-wide mutable state that `POST /api/log-access` touches:
the in-memory `lastAccessTimes` object (modelled as an association list
read through `List.lookup`, assignment as a shadowing prepend) and the
`access_logs` collection. -/
structure AccessState where
  lastAccessTimes : List (String × Int)
  accessLogs : List LogEntry
  deriving DecidableEq

/-- The debounce key: the template literal `community-player`. -/
def lastAccessKey (community player : String) : String :=
  community ++ "-" ++ player

/-- `lastAccessTimes[lastAccessKey] || 0`. -/
def lookupLast (m : List (String × Int)) (k : String) : Int :=
  (List.lookup k m).getD 0

/-- `POST /api/log-access` (document-database iteration): 404 when no
community has the given name; 429, with no state change, when the
request arrives less than 5000 ms after the stored last-access time for
the key; otherwise record the current time under the key, append the
log entry and answer 200. -/
def logAccess (comms : List Community) (st : AccessState)
    (community player action : String) (now : Int) : AccessState × Nat :=
  if comms.any (fun c => c.name == community) then
    if now - lookupLast st.lastAccessTimes (lastAccessKey community player)
        < 5000 then
      (st, 429)
    else
      ({ lastAccessTimes :=
           (lastAccessKey community player, now) :: st.lastAccessTimes,
         accessLogs := st.accessLogs ++ [⟨community, player, action, now⟩] },
        200)
  else (st, 404)

/-- One incoming `POST /api/log-access` request body together with the
`Date.now()` value at which it is processed. -/
structure Req where
  community : String
  player : String
  action : String
  time : Int
  deriving DecidableEq

/-- Process a list of `log-access` requests in order, threading the
in-memory state and recording the status answered to each request. -/
def runLog (comms : List Community) :
    AccessState → List Req → AccessState × List (Req × Nat)
  | st, [] => (st, [])
  | st, r :: rs =>
      let p := logAccess comms st r.community r.player r.action r.time
      let q := runLog comms p.1 rs
      (q.1, (r, p.2) :: q.2)

/-- The times of the requests for debounce key `k` that were answered
200, in processing order. -/
def acceptedTimes (k : String) (trace : List (Req × Nat)) : List Int :=
  (trace.filter (fun x => x.2 == 200 &&
    (lastAccessKey x.1.community x.1.player == k))).map (fun x => x.1.time)

theorem lookupLast_insert_self (m : List (String × Int)) (k : String)
    (t : Int) : lookupLast ((k, t) :: m) k = t := by
  simp [lookupLast, List.lookup]

theorem lookupLast_insert_ne (m : List (String × Int)) (k k' : String)
    (t : Int) (h : k' ≠ k) : lookupLast ((k, t) :: m) k' = lookupLast m k' := by
  have hbeq : (k' == k) = false := by simpa using h
  simp [lookupLast, List.lookup, hbeq]

theorem logAccess_not_found (comms : List Community) (st : AccessState)
    (community player action : String) (now : Int)
    (hex : comms.any (fun c => c.name == community) = false) :
    logAccess comms st community player action now = (st, 404) := by
  simp [logAccess, hex]

theorem logAccess_throttled (comms : List Community) (st : AccessState)
    (community player action : String) (now : Int)
    (hex : comms.any (fun c => c.name == community) = true)
    (hlt : now - lookupLast st.lastAccessTimes (lastAccessKey community player)
      < 5000) :
    logAccess comms st community player action now = (st, 429) := by
  simp [logAccess, hex, hlt]

theorem logAccess_accepted (comms : List Community) (st : AccessState)
    (community player action : String) (now : Int)
    (hex : comms.any (fun c => c.name == community) = true)
    (hge : ¬ now - lookupLast st.lastAccessTimes
      (lastAccessKey community player) < 5000) :
    logAccess comms st community player action now =
      ({ lastAccessTimes :=
           (lastAccessKey community player, now) :: st.lastAccessTimes,
         accessLogs := st.accessLogs ++ [⟨community, player, action, now⟩] },
        200) := by
  simp [logAccess, hex, hge]

/-- C3: after a `log-access` request for (community c, player p) was
accepted at time `t₁` (resulting in state `st₁`), a second request for
the same pair arriving at `t₂` with `t₂ - t₁ < 5000` is answered 429
with the state — in particular the appended logs — unchanged, while one
with `t₂ - t₁ ≥ 5000` is answered 200 and appends exactly one log
entry for it. -/
theorem C3_log_access_debounce (comms : List Community) (st : AccessState)
    (c p a₁ a₂ : String) (t₁ t₂ : Int) (st₁ : AccessState)
    (h1 : logAccess comms st c p a₁ t₁ = (st₁, 200)) :
    (t₂ - t₁ < 5000 → logAccess comms st₁ c p a₂ t₂ = (st₁, 429)) ∧
    (5000 ≤ t₂ - t₁ →
      (logAccess comms st₁ c p a₂ t₂).2 = 200 ∧
      (logAccess comms st₁ c p a₂ t₂).1.accessLogs =
        st₁.accessLogs ++ [⟨c, p, a₂, t₂⟩]) := by
  by_cases hex : comms.any (fun c0 => c0.name == c) = true
  · by_cases hlt : t₁ - lookupLast st.lastAccessTimes (lastAccessKey c p)
        < 5000
    · rw [logAccess_throttled comms st c p a₁ t₁ hex hlt] at h1
      simp at h1
    · rw [logAccess_accepted comms st c p a₁ t₁ hex hlt] at h1
      have hst : st₁ =
          { lastAccessTimes := (lastAccessKey c p, t₁) :: st.lastAccessTimes,
            accessLogs := st.accessLogs ++ [⟨c, p, a₁, t₁⟩] } :=
        ((Prod.ext_iff.1 h1).1).symm
      have hlook : lookupLast st₁.lastAccessTimes (lastAccessKey c p) = t₁ := by
        rw [hst]
        exact lookupLast_insert_self st.lastAccessTimes (lastAccessKey c p) t₁
      constructor
      · intro hlt2
        exact logAccess_throttled comms st₁ c p a₂ t₂ hex (by omega)
      · intro hge2
        rw [logAccess_accepted comms st₁ c p a₂ t₂ hex (by omega)]
        exact ⟨rfl, rfl⟩
  · rw [logAccess_not_found comms st c p a₁ t₁ (by simpa using hex)] at h1
    simp at h1

/-- Witness for C3 at concrete inputs: in community `"Elm"`, player
`"p"` accepted at time 10000; a retry at 11000 is answered 429 leaving
the state alone, and a retry at 15000 is answered 200 and appends its
entry. -/
theorem C3_log_access_debounce_witness :
    (logAccess [⟨"1", "Elm", [], []⟩]
        ⟨[("Elm-p", 10000)], [⟨"Elm", "p", "enter", 10000⟩]⟩
        "Elm" "p" "enter" 11000 =
      (⟨[("Elm-p", 10000)], [⟨"Elm", "p", "enter", 10000⟩]⟩, 429)) ∧
    ((logAccess [⟨"1", "Elm", [], []⟩]
        ⟨[("Elm-p", 10000)], [⟨"Elm", "p", "enter", 10000⟩]⟩
        "Elm" "p" "enter" 15000).2 = 200 ∧
      (logAccess [⟨"1", "Elm", [], []⟩]
        ⟨[("Elm-p", 10000)], [⟨"Elm", "p", "enter", 10000⟩]⟩
        "Elm" "p" "enter" 15000).1.accessLogs =
        [⟨"Elm", "p", "enter", 10000⟩] ++ [⟨"Elm", "p", "enter", 15000⟩]) :=
  ⟨(C3_log_access_debounce [⟨"1", "Elm", [], []⟩] ⟨[], []⟩
      "Elm" "p" "enter" "enter" 10000 11000
      ⟨[("Elm-p", 10000)], [⟨"Elm", "p", "enter", 10000⟩]⟩ (by decide)).1
      (by decide),
   (C3_log_access_debounce [⟨"1", "Elm", [], []⟩] ⟨[], []⟩
      "Elm" "p" "enter" "enter" 10000 15000
      ⟨[("Elm-p", 10000)], [⟨"Elm", "p", "enter", 10000⟩]⟩ (by decide)).2
      (by decide)⟩

theorem acceptedTimes_cons (k : String) (x : Req × Nat)
    (trace : List (Req × Nat)) :
    acceptedTimes k (x :: trace) =
      if (x.2 == 200 && (lastAccessKey x.1.community x.1.player == k)) then
        x.1.time :: acceptedTimes k trace
      else acceptedTimes k trace := by
  by_cases h : (x.2 == 200 && (lastAccessKey x.1.community x.1.player == k))
      = true
  · simp [acceptedTimes, List.filter_cons, h]
  · simp only [Bool.not_eq_true] at h
    simp [acceptedTimes, List.filter_cons, h]

/-- Invariant of the request run: starting from a state whose stored
last-access time for key `k` bounds every previously accepted time for
`k`, the accepted times for `k` stay pairwise at least 5000 ms apart
and stay bounded by the stored last-access time. -/
theorem runLog_accepted_invariant (comms : List Community) (k : String) :
    ∀ (reqs : List Req) (st : AccessState) (acc : List Int),
      acc.Pairwise (fun a b => a + 5000 ≤ b) →
      (∀ t ∈ acc, t ≤ lookupLast st.lastAccessTimes k) →
      (acc ++ acceptedTimes k (runLog comms st reqs).2).Pairwise
        (fun a b => a + 5000 ≤ b) ∧
      (∀ t ∈ acc ++ acceptedTimes k (runLog comms st reqs).2,
        t ≤ lookupLast (runLog comms st reqs).1.lastAccessTimes k) := by
  intro reqs
  induction reqs with
  | nil =>
      intro st acc hpw hb
      constructor
      · simpa [runLog, acceptedTimes] using hpw
      · simpa [runLog, acceptedTimes] using hb
  | cons r rs ih =>
      intro st acc hpw hb
      by_cases hex : comms.any (fun c0 => c0.name == r.community) = true
      · by_cases hlt : r.time - lookupLast st.lastAccessTimes
            (lastAccessKey r.community r.player) < 5000
        · have hp : logAccess comms st r.community r.player r.action r.time =
              (st, 429) :=
            logAccess_throttled comms st r.community r.player r.action
              r.time hex hlt
          have hrun : runLog comms st (r :: rs) =
              ((runLog comms st rs).1,
               (r, 429) :: (runLog comms st rs).2) := by
            simp [runLog, hp]
          rw [hrun, acceptedTimes_cons]
          simpa using ih st acc hpw hb
        · have hp : logAccess comms st r.community r.player r.action r.time =
              ({ lastAccessTimes :=
                   (lastAccessKey r.community r.player, r.time) ::
                     st.lastAccessTimes,
                 accessLogs := st.accessLogs ++
                   [⟨r.community, r.player, r.action, r.time⟩] }, 200) :=
            logAccess_accepted comms st r.community r.player r.action
              r.time hex hlt
          set st' : AccessState :=
            { lastAccessTimes :=
                (lastAccessKey r.community r.player, r.time) ::
                  st.lastAccessTimes,
              accessLogs := st.accessLogs ++
                [⟨r.community, r.player, r.action, r.time⟩] } with hst'
          have hrun : runLog comms st (r :: rs) =
              ((runLog comms st' rs).1,
               (r, 200) :: (runLog comms st' rs).2) := by
            simp [runLog, hp, hst']
          rw [hrun, acceptedTimes_cons]
          by_cases hk : lastAccessKey r.community r.player = k
          · have hcond : (((200 : Nat) == 200) &&
                (lastAccessKey r.community r.player == k)) = true := by
              simp [hk]
            rw [if_pos hcond]
            have hb5 : ∀ t ∈ acc, t + 5000 ≤ r.time := by
              intro t ht
              have h1 := hb t ht
              rw [hk] at hlt
              omega
            have hpw' : (acc ++ [r.time]).Pairwise
                (fun a b => a + 5000 ≤ b) := by
              rw [List.pairwise_append]
              refine ⟨hpw, List.pairwise_singleton _ _, ?_⟩
              intro a ha b hbmem
              have : b = r.time := by simpa using hbmem
              subst this
              exact hb5 a ha
            have hb' : ∀ t ∈ acc ++ [r.time],
                t ≤ lookupLast st'.lastAccessTimes k := by
              intro t ht
              have hlook : lookupLast st'.lastAccessTimes k = r.time := by
                rw [hst', ← hk]
                exact lookupLast_insert_self st.lastAccessTimes
                  (lastAccessKey r.community r.player) r.time
              rw [hlook]
              rcases List.mem_append.1 ht with h | h
              · have := hb5 t h
                omega
              · have : t = r.time := by simpa using h
                omega
            have hres := ih st' (acc ++ [r.time]) hpw' hb'
            constructor
            · have := hres.1
              simpa [List.append_assoc] using this
            · intro t ht
              refine hres.2 t ?_
              simp only [List.append_assoc, List.singleton_append]
              simpa using ht
          · have hcond : (((200 : Nat) == 200) &&
                (lastAccessKey r.community r.player == k)) = false := by
              simp [hk]
            rw [hcond]
            simp only [Bool.false_eq_true, if_false]
            have hb2 : ∀ t ∈ acc, t ≤ lookupLast st'.lastAccessTimes k := by
              intro t ht
              have hlook : lookupLast st'.lastAccessTimes k =
                  lookupLast st.lastAccessTimes k := by
                rw [hst']
                exact lookupLast_insert_ne st.lastAccessTimes
                  (lastAccessKey r.community r.player) k r.time
                  (fun h => hk h.symm)
              rw [hlook]
              exact hb t ht
            exact ih st' acc hpw hb2
      · have hp : logAccess comms st r.community r.player r.action r.time =
            (st, 404) :=
          logAccess_not_found comms st r.community r.player r.action r.time
            (by simpa using hex)
        have hrun : runLog comms st (r :: rs) =
            ((runLog comms st rs).1,
             (r, 404) :: (runLog comms st rs).2) := by
          simp [runLog, hp]
        rw [hrun, acceptedTimes_cons]
        simpa using ih st acc hpw hb

/-- C10: a request answered 429 changes nothing — in particular the
`lastAccessTimes` entry for its key is untouched, so the 5-second
window keeps being measured from the last accepted request — and
consequently, over any sequence of `log-access` requests, the times of
the accepted requests for any fixed key are pairwise at least 5000 ms
apart (each at least 5000 ms after every earlier accepted one). -/
theorem C10_rejected_requests_do_not_reset_window :
    (∀ (comms : List Community) (st : AccessState) (c p a : String)
        (t : Int),
      (logAccess comms st c p a t).2 = 429 →
      (logAccess comms st c p a t).1 = st) ∧
    (∀ (comms : List Community) (st : AccessState) (reqs : List Req)
        (k : String),
      (acceptedTimes k (runLog comms st reqs).2).Pairwise
        (fun a b => a + 5000 ≤ b)) := by
  constructor
  · intro comms st c p a t h429
    by_cases hex : comms.any (fun c0 => c0.name == c) = true
    · by_cases hlt : t - lookupLast st.lastAccessTimes (lastAccessKey c p)
          < 5000
      · rw [logAccess_throttled comms st c p a t hex hlt]
      · rw [logAccess_accepted comms st c p a t hex hlt] at h429
        simp at h429
    · rw [logAccess_not_found comms st c p a t (by simpa using hex)]
  · intro comms st reqs k
    have h := runLog_accepted_invariant comms k reqs st []
      List.Pairwise.nil (by intro t ht; exact absurd ht (List.not_mem_nil t))
    simpa using h.1

/-- Witness for C10 at concrete inputs: a retry 1000 ms after an
accepted request is answered 429 and leaves the state untouched, and
over the concrete run (accept at 10000, reject at 11000, reject at
14999, accept at 15000) the accepted times stay 5000 ms apart. -/
theorem C10_rejected_requests_do_not_reset_window_witness :
    (logAccess [⟨"1", "Elm", [], []⟩] ⟨[("Elm-p", 10000)], []⟩
        "Elm" "p" "enter" 11000).1 = ⟨[("Elm-p", 10000)], []⟩ ∧
    (acceptedTimes "Elm-p"
      (runLog [⟨"1", "Elm", [], []⟩] ⟨[], []⟩
        [⟨"Elm", "p", "enter", 10000⟩, ⟨"Elm", "p", "enter", 11000⟩,
         ⟨"Elm", "p", "enter", 14999⟩,
         ⟨"Elm", "p", "enter", 15000⟩]).2).Pairwise
      (fun a b => a + 5000 ≤ b) :=
  ⟨C10_rejected_requests_do_not_reset_window.1 [⟨"1", "Elm", [], []⟩]
      ⟨[("Elm-p", 10000)], []⟩ "Elm" "p" "enter" 11000 (by decide),
   C10_rejected_requests_do_not_reset_window.2 [⟨"1", "Elm", [], []⟩]
      ⟨[], []⟩
      [⟨"Elm", "p", "enter", 10000⟩, ⟨"Elm", "p", "enter", 11000⟩,
       ⟨"Elm", "p", "enter", 14999⟩, ⟨"Elm", "p", "enter", 15000⟩] "Elm-p"⟩
